import Mathlib

/-!
Shallow embedding of the EMI-LY voice-assistant pipeline
(`command_handler.py`, `voice_activation.py`, `stt_engine.py`).

Text is modelled as `List Char`; Python `str.lower` is embedded for the
alphabets the program uses (ASCII and Russian Cyrillic), `str.strip`
for ASCII whitespace.  Python callables bound in the command registry
are modelled by `Effect`: either a returned response string or a raised
exception carrying its rendered message.  Debug printing and the
text-to-speech queue are side effects that do not influence any value
the claims speak about, so they are not part of the embedding.
-/

/-- Python `str.lower` on a single character, for the character ranges
occurring in this program: ASCII `a`..`z` and Russian Cyrillic `А`..`Я`
plus `Ё`.  Characters outside these ranges are unaffected, as in Python. -/
def pyLowerChar (c : Char) : Char :=
  if 'A' ≤ c ∧ c ≤ 'Z' then Char.ofNat (c.toNat + 32)
  else if 'А' ≤ c ∧ c ≤ 'Я' then Char.ofNat (c.toNat + 32)
  else if c = 'Ё' then 'ё'
  else c

/-- Python `str.lower` (character-wise). -/
def pyLower (s : List Char) : List Char := s.map pyLowerChar

/-- Python whitespace characters removed by `str.strip`. -/
def isPySpace (c : Char) : Bool :=
  c = ' ' || c = '\t' || c = '\n' || c = '\x0d' || c = '\x0b' || c = '\x0c'

/-- Python `str.strip`: drop whitespace from both ends. -/
def pyStrip (s : List Char) : List Char :=
  ((s.dropWhile isPySpace).reverse.dropWhile isPySpace).reverse

/-- The normalisation applied by `CommandHandler.execute_command`:
`command_text.lower().strip()`. -/
def pyNorm (s : List Char) : List Char := pyStrip (pyLower s)

/-- Python substring containment `needle in hay`. -/
def isSubstr (needle : List Char) : List Char → Bool
  | [] => needle.isPrefixOf []
  | c :: t => needle.isPrefixOf (c :: t) || isSubstr needle t

/-- A Python callable bound in the command registry: it either returns a
response string or raises an exception whose rendered message is kept. -/
inductive Effect where
  | ok (response : List Char)
  | err (message : List Char)
deriving DecidableEq

/-- The error response built by the `except` branches of
`execute_command`: `f"Ошибка выполнения команды: {e}"`. -/
def errorResponse (message : List Char) : List Char :=
  "Ошибка выполнения команды: ".data ++ message

/-- Invoking an effect inside the dispatcher's `try`: a returned string
is passed through, a raised exception is converted to the error response. -/
def runEffect : Effect → List Char
  | .ok r => r
  | .err m => errorResponse m

/-- The fixed response of the final branch of `execute_command`. -/
def notFoundResponse : List Char :=
  "Извините, я не понял команду. Попробуйте сказать иначе.".data

/-- `CommandHandler.execute_command`: lower-case and strip the input,
look for an exact key match in the registry (a Python dict, i.e. a
key-unique insertion-ordered association list), otherwise scan the
registry in registration order for the first key that is a substring of
the input, otherwise answer the fixed not-understood response.  Effects
are invoked inside `try`, a raised exception becoming the error
response. -/
def execute_command (commands : List (List Char × Effect))
    (command_text : List Char) : List Char :=
  let command_lower := pyNorm command_text
  match commands.find? (fun x => x.1 == command_lower) with
  | some pf => runEffect pf.2
  | none =>
    match commands.find? (fun x => isSubstr x.1 command_lower) with
    | some pf => runEffect pf.2
    | none => notFoundResponse

/-- The bound methods appearing as values of `_initialize_commands`.
Their return values depend on the platform, the clock and the OS calls
they make, so each is an abstract `Effect`. -/
structure CmdEnv where
  restart_computer : Effect
  shutdown_computer : Effect
  open_task_manager : Effect
  show_system_info : Effect
  clear_screen : Effect
  open_notepad : Effect
  open_calculator : Effect
  open_explorer : Effect
  open_browser : Effect
  show_time : Effect
  show_date : Effect
  open_youtube : Effect
  open_google : Effect
  show_capabilities : Effect

/-- `CommandHandler._initialize_commands`: the command dictionary, in
source order.  Pure lambdas are their literal response strings; bound
methods come from the environment. -/
def initializeCommands (env : CmdEnv) : List (List Char × Effect) :=
  [ ("привет".data, .ok "Привет! Чем могу помочь?".data),
    ("здравствуй".data, .ok "Здравствуйте! Рад вас слышать.".data),
    ("добрый день".data, .ok "Добрый день! Чем могу быть полезен?".data),
    ("как дела".data, .ok "Всё отлично! Готова выполнять ваши команды.".data),
    ("как твои дела".data, .ok "У меня всё прекрасно, спасибо что спросили!".data),
    ("как ты".data, .ok "Всё хорошо, работаю в штатном режиме!".data),
    ("как настроение".data, .ok "У меня всегда отличное настроение!".data),
    ("как жизнь".data, .ok "Жизнь прекрасна, особенно когда могу помочь!".data),
    ("спасибо".data, .ok "Пожалуйста! Обращайтесь ещё.".data),
    ("благодарю".data, .ok "Всегда рада помочь!".data),
    ("перезагрузи компьютер".data, env.restart_computer),
    ("выключи компьютер".data, env.shutdown_computer),
    ("открой диспетчер задач".data, env.open_task_manager),
    ("покажи системную информацию".data, env.show_system_info),
    ("очисти экран".data, env.clear_screen),
    ("открой блокнот".data, env.open_notepad),
    ("открой калькулятор".data, env.open_calculator),
    ("открой проводник".data, env.open_explorer),
    ("открой браузер".data, env.open_browser),
    ("который час".data, env.show_time),
    ("сколько время".data, env.show_time),
    ("какое время".data, env.show_time),
    ("текущее время".data, env.show_time),
    ("какая дата".data, env.show_date),
    ("какое сегодня число".data, env.show_date),
    ("текущая дата".data, env.show_date),
    ("открой youtube".data, env.open_youtube),
    ("открой ютуб".data, env.open_youtube),
    ("открой google".data, env.open_google),
    ("открой гугл".data, env.open_google),
    ("что ты умеешь".data, env.show_capabilities),
    ("расскажи о себе".data,
      .ok "Я голосовой ассистент, созданный для помощи в повседневных задачах.".data),
    ("кто ты".data,
      .ok "Я ваш голосовой помощник, готовый помочь с различными задачами.".data) ]

/-- An environment in which every bound method returns the empty string,
used to instantiate universally quantified statements. -/
def trivEnv : CmdEnv :=
  ⟨.ok [], .ok [], .ok [], .ok [], .ok [], .ok [], .ok [], .ok [], .ok [],
   .ok [], .ok [], .ok [], .ok [], .ok []⟩

/-- The registry environment with the bound method `restart_computer`
raising on invocation, used to exhibit the error path of the dispatcher. -/
def errEnv : CmdEnv :=
  ⟨.err "boom".data, .ok [], .ok [], .ok [], .ok [], .ok [], .ok [], .ok [],
   .ok [], .ok [], .ok [], .ok [], .ok [], .ok []⟩

/-- The noise-adaptation state and thresholds of `VoiceActivation`:
`noise_profile` (the noise floor computed by `adapt_to_noise`, read only
when `noise_adapted` is set), the `noise_adapted` flag and the
configured `silence_threshold`.  Sample values and thresholds are
idealised as rationals, their arithmetic as exact real arithmetic. -/
structure VAState where
  noise_profile : ℚ
  noise_adapted : Bool
  silence_threshold : ℚ

/-- `np.sqrt(np.mean(chunk ** 2))`: the root-mean-square volume of an
audio chunk. -/
noncomputable def rms (chunk : List ℚ) : ℝ :=
  Real.sqrt ((chunk.map fun x => (x : ℝ) ^ 2).sum / chunk.length)

/-- `VoiceActivation.detect_activation_word_fallback`: the volume
heuristic used when Porcupine is unavailable.  The threshold is
`noise_profile * 4` when adapted and the fixed `0.05` otherwise; the
frame is reported as containing the keyword when its RMS volume
exceeds the threshold. -/
def DetectFallback (st : VAState) (chunk : List ℚ) : Prop :=
  rms chunk > (if st.noise_adapted then (st.noise_profile : ℝ) * 4 else 0.05)

/-- `VoiceActivation.is_silence`: an empty chunk is silence; otherwise
the chunk is silence when its RMS volume is below
`max(noise_profile * 2.0, silence_threshold)` if adapted, and below
`silence_threshold` if not. -/
def IsSilence (st : VAState) (chunk : List ℚ) : Prop :=
  if chunk.length = 0 then True
  else
    rms chunk <
      (if st.noise_adapted then
        max ((st.noise_profile : ℝ) * 2) (st.silence_threshold : ℝ)
      else (st.silence_threshold : ℝ))

/-- The noise state used in the fallback-detector counterexample:
adapted, with noise floor `0.005` and silence threshold `0.01`. -/
def quietState : VAState := ⟨1 / 200, true, 1 / 100⟩

/-- One iteration of the `while self.is_recording` body of
`VoiceActivation.record_until_silence`, for a frame arriving (and being
processed) at time `t` whose silence classification is `silent`.
The state is the silence-timer start `silence_start_time`; the result is
`none` when the loop breaks at this frame (sustained silence, or the
30-second hard cap `t - recording_start_time > 30`) and `some st` when
it continues with timer state `st`. -/
def recordStep (silence_duration start : ℚ) (st : Option ℚ) (t : ℚ)
    (silent : Bool) : Option (Option ℚ) :=
  match silent, st with
  | true, none => if 30 < t - start then none else some (some t)
  | true, some s =>
    if silence_duration ≤ t - s then none
    else if 30 < t - start then none else some (some s)
  | false, _ => if 30 < t - start then none else some none

/-- Run the recording loop over a finite stream of classified, timed
frames from timer state `st`, returning the 1-based index of the frame
at which the loop breaks, or `none` if the stream is exhausted with the
loop still recording. -/
def recordLoop (silence_duration start : ℚ) :
    Option ℚ → List (ℚ × Bool) → Option ℕ
  | _, [] => none
  | st, f :: rest =>
    match recordStep silence_duration start st f.1 f.2 with
    | none => some 1
    | some st' => (recordLoop silence_duration start st' rest).map (· + 1)

/-- `VoiceActivation.record_until_silence`, started with no silence
timer (`silence_start_time = None`) at `recording_start_time = start`:
the index of the frame that ends the RECORDING episode. -/
def record_until_silence (silence_duration start : ℚ)
    (frames : List (ℚ × Bool)) : Option ℕ :=
  recordLoop silence_duration start none frames

/-- The frame stream of the endpointer boundary claim: frames `1..k`
loud then frames `k+1..k+m` silent, frame `i` arriving one frame
duration `d` after its predecessor, i.e. at time `start + i * d`. -/
def episodeFrames (start d : ℚ) (k m : ℕ) : List (ℚ × Bool) :=
  ((List.range k).map fun i : ℕ => (start + ((i : ℚ) + 1) * d, false)) ++
    ((List.range m).map fun j : ℕ => (start + ((k : ℚ) + (j : ℚ) + 1) * d, true))

/-- Calls made on the underlying Vosk objects. -/
inductive STTEvent where
  | acceptWaveform
  | finalResult
  | reset
deriving DecidableEq

/-- Behaviour of the underlying Vosk recognizer for one utterance:
whether `AcceptWaveform` raises, whether `FinalResult` raises, and the
`text` field of the parsed result otherwise. -/
structure VoskEngine where
  acceptRaises : Bool
  finalRaises : Bool
  text : List Char

/-- `SpeechRecognizer.recognize_audio`: feed the converted buffer to the
engine and parse the final result, returning the stripped text; any
engine error is caught and yields the empty string.  Returns the trace
of engine calls together with the recognized text. -/
def recognize_audio (eng : VoskEngine) : List STTEvent × List Char :=
  if eng.acceptRaises then ([.acceptWaveform], [])
  else if eng.finalRaises then ([.acceptWaveform, .finalResult], [])
  else ([.acceptWaveform, .finalResult], pyStrip eng.text)

/-- `VoiceActivation.process_command`, projected to its engine-call
trace: when a speech recognizer is present, the `try` block calls
`recognize_audio` (and dispatches the text, which makes no engine
calls), and the `finally` block calls `reset_recognizer` exactly once;
without a recognizer nothing touches the engine. -/
def process_command (hasRecognizer : Bool) (eng : VoskEngine) : List STTEvent :=
  if hasRecognizer then (recognize_audio eng).1 ++ [.reset] else []

lemma find_exact_of_nodup (reg : List (List Char × Effect)) (p : List Char) (e : Effect)
    (hmem : (p, e) ∈ reg) (hnd : (reg.map Prod.fst).Nodup) :
    reg.find? (fun x => x.1 == p) = some (p, e) := by
  induction reg with
  | nil => cases hmem
  | cons q rest ih =>
    rw [List.map_cons, List.nodup_cons] at hnd
    rcases List.mem_cons.mp hmem with h | h
    · subst h
      exact List.find?_cons_of_pos _ (by simp)
    · have hne : q.1 ≠ p := by
        intro hqp
        exact hnd.1 (hqp ▸ List.mem_map_of_mem Prod.fst h)
      rw [List.find?_cons_of_neg _ (by simp [hne])]
      exact ih h hnd.2

lemma find_substr_first (l₁ l₂ : List (List Char × Effect)) (p : List Char)
    (e : Effect) (t : List Char)
    (hb : ∀ q ∈ l₁, isSubstr q.1 t = false) (hp : isSubstr p t = true) :
    (l₁ ++ (p, e) :: l₂).find? (fun x => isSubstr x.1 t) = some (p, e) := by
  induction l₁ with
  | nil => exact List.find?_cons_of_pos _ hp
  | cons q l₁ ih =>
    rw [List.cons_append,
      List.find?_cons_of_neg _ (by simp [hb q (List.mem_cons_self q l₁)])]
    exact ih fun r hr => hb r (List.mem_cons_of_mem q hr)

/-- Claim C1: for every phrase bound in the command registry built by
`_initialize_commands`, dispatching that phrase itself finds an exact
match (the registry lookup after lower-casing and stripping succeeds on
that very entry) and returns the result of the effect bound to it, for
every behaviour of the bound methods. -/
theorem execute_command_exact_match (env : CmdEnv) (p : List Char) (e : Effect)
    (hmem : (p, e) ∈ initializeCommands env) :
    (initializeCommands env).find? (fun x => x.1 == pyNorm p) = some (p, e) ∧
    execute_command (initializeCommands env) p = runEffect e := by
  have hkeys : (initializeCommands env).map Prod.fst
      = (initializeCommands trivEnv).map Prod.fst := rfl
  have hfix : pyNorm p = p := by
    have hp : p ∈ (initializeCommands trivEnv).map Prod.fst := by
      rw [← hkeys]; exact List.mem_map_of_mem Prod.fst hmem
    have hall : ∀ k ∈ (initializeCommands trivEnv).map Prod.fst, pyNorm k = k := by
      decide
    exact hall p hp
  have hnd : ((initializeCommands env).map Prod.fst).Nodup := by
    rw [hkeys]; decide
  have hfind := find_exact_of_nodup _ p e hmem hnd
  refine ⟨by rw [hfix]; exact hfind, ?_⟩
  simp only [execute_command, hfix, hfind]

/-- Witness for C1 at the registered phrase `"спасибо"`. -/
theorem execute_command_exact_match_witness :
    (("спасибо".data, Effect.ok "Пожалуйста! Обращайтесь ещё.".data)
        ∈ initializeCommands trivEnv) ∧
    ((initializeCommands trivEnv).find? (fun x => x.1 == pyNorm "спасибо".data)
        = some ("спасибо".data, Effect.ok "Пожалуйста! Обращайтесь ещё.".data) ∧
      execute_command (initializeCommands trivEnv) "спасибо".data
        = runEffect (Effect.ok "Пожалуйста! Обращайтесь ещё.".data)) :=
  ⟨by decide,
   execute_command_exact_match trivEnv "спасибо".data
     (Effect.ok "Пожалуйста! Обращайтесь ещё.".data) (by decide)⟩

/-- Claim C2: if the normalised input has no exact match in the
registry, the dispatcher returns the effect of the first entry in
registration order whose trigger phrase is a substring of the input:
any entry registered earlier than the matching one is not a substring,
and the returned response is that entry's effect. -/
theorem execute_command_substring_first (reg l₁ l₂ : List (List Char × Effect))
    (p : List Char) (e : Effect) (t : List Char)
    (hreg : reg = l₁ ++ (p, e) :: l₂)
    (hexact : reg.find? (fun x => x.1 == pyNorm t) = none)
    (hbefore : ∀ q ∈ l₁, isSubstr q.1 (pyNorm t) = false)
    (hp : isSubstr p (pyNorm t) = true) :
    execute_command reg t = runEffect e := by
  have hsub : reg.find? (fun x => isSubstr x.1 (pyNorm t)) = some (p, e) := by
    rw [hreg]; exact find_substr_first l₁ l₂ p e _ hbefore hp
  simp only [execute_command, hexact, hsub]

/-- Witness for C2: `"привет эмили"` is not a registered phrase but
contains the first-registered phrase `"привет"`. -/
theorem execute_command_substring_first_witness :
    (initializeCommands trivEnv
        = [] ++ ("привет".data, Effect.ok "Привет! Чем могу помочь?".data)
            :: (initializeCommands trivEnv).drop 1) ∧
    ((initializeCommands trivEnv).find?
        (fun x => x.1 == pyNorm "привет эмили".data) = none) ∧
    isSubstr "привет".data (pyNorm "привет эмили".data) = true ∧
    execute_command (initializeCommands trivEnv) "привет эмили".data
      = runEffect (Effect.ok "Привет! Чем могу помочь?".data) :=
  ⟨rfl, by decide, by decide,
   execute_command_substring_first (initializeCommands trivEnv) []
     ((initializeCommands trivEnv).drop 1) "привет".data
     (Effect.ok "Привет! Чем могу помочь?".data) "привет эмили".data
     rfl (by decide) (by simp) (by decide)⟩

/-- Claim C3: an input whose normalisation neither matches a registered
phrase exactly nor contains one as a substring gets the fixed
not-understood response. -/
theorem execute_command_not_understood (reg : List (List Char × Effect))
    (t : List Char)
    (hexact : reg.find? (fun x => x.1 == pyNorm t) = none)
    (hsub : reg.find? (fun x => isSubstr x.1 (pyNorm t)) = none) :
    execute_command reg t = notFoundResponse := by
  simp only [execute_command, hexact, hsub]

/-- Witness for C3 at the unrecognized input `"бла бла бла"`. -/
theorem execute_command_not_understood_witness :
    ((initializeCommands trivEnv).find?
        (fun x => x.1 == pyNorm "бла бла бла".data) = none) ∧
    ((initializeCommands trivEnv).find?
        (fun x => isSubstr x.1 (pyNorm "бла бла бла".data)) = none) ∧
    execute_command (initializeCommands trivEnv) "бла бла бла".data
      = notFoundResponse :=
  ⟨by decide, by decide,
   execute_command_not_understood (initializeCommands trivEnv)
     "бла бла бла".data (by decide) (by decide)⟩

/-- Claim C4: whether the input is matched exactly or by substring, a
matched effect that raises is caught by the dispatcher, which returns
the error response string built from the exception instead of
propagating it; `execute_command` is total by construction. -/
theorem execute_command_catches_effect_error (reg : List (List Char × Effect))
    (t p msg : List Char)
    (h : reg.find? (fun x => x.1 == pyNorm t) = some (p, .err msg) ∨
      (reg.find? (fun x => x.1 == pyNorm t) = none ∧
        reg.find? (fun x => isSubstr x.1 (pyNorm t)) = some (p, .err msg))) :
    execute_command reg t = errorResponse msg := by
  rcases h with h | ⟨h1, h2⟩
  · simp only [execute_command, h, runEffect]
  · simp only [execute_command, h1, h2, runEffect]

/-- Witness for C4: with `restart_computer` raising `"boom"`, the exact
match on `"перезагрузи компьютер"` yields the error response. -/
theorem execute_command_catches_effect_error_witness :
    ((initializeCommands errEnv).find?
        (fun x => x.1 == pyNorm "перезагрузи компьютер".data)
      = some ("перезагрузи компьютер".data, Effect.err "boom".data)) ∧
    execute_command (initializeCommands errEnv) "перезагрузи компьютер".data
      = errorResponse "boom".data :=
  ⟨by decide,
   execute_command_catches_effect_error (initializeCommands errEnv)
     "перезагрузи компьютер".data "перезагрузи компьютер".data "boom".data
     (Or.inl (by decide))⟩

lemma rms_single (q : ℚ) (h : 0 ≤ q) : rms [q] = (q : ℝ) := by
  have h1 : rms [q] = Real.sqrt (((q : ℝ) ^ 2 + 0) / ((1 : ℕ) : ℝ)) := rfl
  rw [h1]
  norm_num
  exact Real.sqrt_sq (show (0 : ℝ) ≤ (q : ℝ) by exact_mod_cast h)

/-- Counterexample to claim C5: with an adapted noise floor of `0.005`,
the code's fallback threshold is `0.005 * 4 = 0.02`, not
`max(0.005 * 4, 0.05) = 0.05`; a frame of RMS `0.03` is reported as
detected although it does not exceed `max(noiseFloor * 4, 0.05)`. -/
theorem detect_fallback_no_max_counterexample :
    DetectFallback quietState [3 / 100] ∧
    ¬ rms [3 / 100] > max ((quietState.noise_profile : ℝ) * 4) 0.05 := by
  have h : rms [(3 / 100 : ℚ)] = ((3 / 100 : ℚ) : ℝ) :=
    rms_single _ (by norm_num)
  constructor
  · show rms [3 / 100] > _
    rw [h]
    norm_num [quietState]
  · rw [h]
    norm_num [quietState]

/-- Claim C5 as amended: the fallback detector reports detection exactly
when the frame's RMS exceeds `noiseFloor * 4` if the noise profile is
adapted — the fixed default is not applied as a lower clamp — and
exactly when it exceeds the fixed default `0.05` if not adapted. -/
theorem detect_fallback_threshold (st : VAState) (chunk : List ℚ) :
    (st.noise_adapted = true →
      (DetectFallback st chunk ↔ rms chunk > (st.noise_profile : ℝ) * 4)) ∧
    (st.noise_adapted = false →
      (DetectFallback st chunk ↔ rms chunk > 0.05)) := by
  constructor <;> intro h <;> simp [DetectFallback, h]

/-- Witness for the amended C5 in the adapted state. -/
theorem detect_fallback_threshold_witness :
    quietState.noise_adapted = true ∧
    (DetectFallback quietState [3 / 100] ↔
      rms [3 / 100] > (quietState.noise_profile : ℝ) * 4) :=
  ⟨rfl, (detect_fallback_threshold quietState [3 / 100]).1 rfl⟩

/-- Claim C6: a non-empty frame is classified as silence exactly when
its RMS is below `max(noiseFloor * 2.0, silenceThreshold)` if the noise
profile is adapted, and below the configured `silenceThreshold` if it
is not. -/
theorem is_silence_threshold (st : VAState) (chunk : List ℚ) (h : chunk ≠ []) :
    (st.noise_adapted = true →
      (IsSilence st chunk ↔
        rms chunk < max ((st.noise_profile : ℝ) * 2) (st.silence_threshold : ℝ))) ∧
    (st.noise_adapted = false →
      (IsSilence st chunk ↔ rms chunk < (st.silence_threshold : ℝ))) := by
  have hl : ¬ chunk.length = 0 := by simpa using h
  constructor <;> intro ha <;> simp [IsSilence, hl, ha]

/-- Witness for C6 on a non-empty frame in the non-adapted state. -/
theorem is_silence_threshold_witness :
    (([0] : List ℚ) ≠ [] ∧ (⟨0, false, 1 / 100⟩ : VAState).noise_adapted = false) ∧
    (IsSilence ⟨0, false, 1 / 100⟩ [0] ↔
      rms [0] < (((⟨0, false, 1 / 100⟩ : VAState).silence_threshold : ℚ) : ℝ)) :=
  ⟨⟨by decide, rfl⟩, (is_silence_threshold ⟨0, false, 1 / 100⟩ [0] (by decide)).2 rfl⟩

/-- Claim C10: the empty audio chunk is classified as silence for every
noise state, without the RMS comparison being consulted. -/
theorem is_silence_empty_chunk (st : VAState) : IsSilence st [] := by
  simp [IsSilence]

lemma recordStep_cap_break (D start : ℚ) (st : Option ℚ) (t : ℚ) (b : Bool)
    (h : 30 < t - start) : recordStep D start st t b = none := by
  rcases b <;> rcases st <;> simp only [recordStep, if_pos h] <;> split <;>
    simp [h]

lemma recordLoop_cap_aux (D start : ℚ) (frames : List (ℚ × Bool)) :
    ∀ (i : ℕ) (st : Option ℚ) (hi : i < frames.length),
      30 < (frames.get ⟨i, hi⟩).1 - start →
      ∃ j, recordLoop D start st frames = some j ∧ j ≤ i + 1 := by
  induction frames with
  | nil => intro i st hi; simp at hi
  | cons f rest ih =>
    intro i st hi hcap
    match hs : recordStep D start st f.1 f.2 with
    | none =>
      exact ⟨1, by simp [recordLoop, hs], by omega⟩
    | some st' =>
      match i with
      | 0 =>
        rw [recordStep_cap_break D start st f.1 f.2 hcap] at hs
        cases hs
      | i' + 1 =>
        obtain ⟨j, hj, hle⟩ := ih i' st' (by simpa using hi) (by simpa using hcap)
        exact ⟨j + 1, by simp [recordLoop, hs, hj], by omega⟩

lemma recordLoop_first_silent (D start t : ℚ) (rest : List (ℚ × Bool))
    (hc : t - start ≤ 30) :
    recordLoop D start none ((t, true) :: rest)
      = (recordLoop D start (some t) rest).map (· + 1) := by
  simp [recordLoop, recordStep, not_lt.mpr hc]

lemma recordLoop_break_single (D start s t : ℚ) (hge : D ≤ t - s) :
    recordLoop D start (some s) [(t, true)] = some 1 := by
  simp [recordLoop, recordStep, if_pos hge]

lemma recordLoop_loud_append (D start : ℚ) (l rest : List (ℚ × Bool))
    (h : ∀ x ∈ l, x.2 = false ∧ x.1 - start ≤ 30) :
    recordLoop D start none (l ++ rest)
      = (recordLoop D start none rest).map (· + l.length) := by
  induction l with
  | nil => simp
  | cons f l ih =>
    obtain ⟨hf, hc⟩ := h f (List.mem_cons_self f l)
    have hstep : recordStep D start none f.1 f.2 = some none := by
      simp [recordStep, hf, not_lt.mpr hc]
    rw [List.cons_append]
    simp only [recordLoop, hstep]
    rw [ih fun x hx => h x (List.mem_cons_of_mem f hx)]
    cases recordLoop D start none rest <;> simp <;> omega

lemma recordLoop_silent_hold (D start s : ℚ) (l rest : List (ℚ × Bool))
    (h : ∀ x ∈ l, x.2 = true ∧ x.1 - s < D ∧ x.1 - start ≤ 30) :
    recordLoop D start (some s) (l ++ rest)
      = (recordLoop D start (some s) rest).map (· + l.length) := by
  induction l with
  | nil => simp
  | cons f l ih =>
    obtain ⟨hf, hlt, hc⟩ := h f (List.mem_cons_self f l)
    have hstep : recordStep D start (some s) f.1 f.2 = some (some s) := by
      simp [recordStep, hf, not_le.mpr hlt, not_lt.mpr hc]
    rw [List.cons_append]
    simp only [recordLoop, hstep]
    rw [ih fun x hx => h x (List.mem_cons_of_mem f hx)]
    cases recordLoop D start (some s) rest <;> simp <;> omega

lemma episodeFrames_split (k m' : ℕ) (d start : ℚ) :
    episodeFrames start d k (m' + 2)
      = ((List.range k).map fun i : ℕ => (start + ((i : ℚ) + 1) * d, false)) ++
        ((start + ((k : ℚ) + 1) * d, true) ::
          (((List.range m').map fun j : ℕ =>
              (start + ((k : ℚ) + ((j : ℚ) + 1) + 1) * d, true)) ++
            [(start + ((k : ℚ) + ((m' : ℚ) + 1) + 1) * d, true)])) := by
  rw [episodeFrames]
  congr 1
  rw [List.range_succ_eq_map, List.range_succ, List.map_cons, List.map_map,
    List.map_append]
  congr 1
  · norm_num
  congr 1
  · refine List.map_congr_left fun j hj => ?_
    simp only [Function.comp, Prod.mk.injEq]
    refine ⟨?_, trivial⟩
    push_cast
    ring
  · simp only [List.map_cons, List.map_nil, Function.comp, Prod.mk.injEq]
    norm_cast

/-- Counterexample to claim C7: with frame duration 1 s, silence
duration 2 s, one loud frame and `m = 2` silent frames, the claim's
hypothesis `m × frameDuration ≥ silenceDuration` holds, yet the episode
does not end at frame `k + m = 3` (nor anywhere in the stream): the
silence timer starts at the arrival of frame 2, so at frame 3 only one
second of silence has elapsed. -/
theorem record_until_silence_boundary_counterexample :
    ((2 : ℚ)) * 1 ≥ 2 ∧
    record_until_silence 2 0 (episodeFrames 0 1 1 2) = none := by
  constructor
  · norm_num
  · norm_num [record_until_silence, recordLoop, recordStep, episodeFrames,
      List.range_succ]

/-- Claim C7 as amended: with frames 1..k loud and frames k+1..k+m
silent, one frame duration `d` apart and within the 30 s cap, the
RECORDING episode ends exactly at frame `k + m` precisely when the
silence measured from the arrival of the first silent frame reaches the
silence duration there: `(m − 1) × d ≥ silenceDuration` while
`(m − 2) × d < silenceDuration` — one frame later than the claim's
`m × d ≥ silenceDuration` boundary. -/
theorem record_until_silence_ends_at (k m : ℕ) (d D start : ℚ)
    (hd : 0 < d) (hm : 2 ≤ m)
    (hlast : D ≤ ((m : ℚ) - 1) * d)
    (hmid : ((m : ℚ) - 2) * d < D)
    (hcap : ((k : ℚ) + m) * d ≤ 30) :
    record_until_silence D start (episodeFrames start d k m) = some (k + m) := by
  obtain ⟨m', rfl⟩ : ∃ m', m = m' + 2 := ⟨m - 2, by omega⟩
  have hmQ : ((m' + 2 : ℕ) : ℚ) = (m' : ℚ) + 2 := by push_cast; ring
  rw [hmQ] at hlast hmid hcap
  have htime : ∀ i : ℕ, i ≤ k + (m' + 2) → ((i : ℚ)) * d ≤ 30 := by
    intro i hi
    have hiQ : (i : ℚ) ≤ (k : ℚ) + ((m' : ℚ) + 2) := by exact_mod_cast hi
    nlinarith
  have hloud : ∀ x ∈ (List.range k).map
      fun i : ℕ => (start + ((i : ℚ) + 1) * d, false),
      (x : ℚ × Bool).2 = false ∧ x.1 - start ≤ 30 := by
    intro x hx
    obtain ⟨i, hi, rfl⟩ := List.mem_map.mp hx
    have hik : i < k := List.mem_range.mp hi
    refine ⟨rfl, ?_⟩
    have he : (start + ((i : ℚ) + 1) * d) - start = ((i : ℚ) + 1) * d := by ring
    rw [he]
    have h2 := htime (i + 1) (by omega)
    push_cast at h2
    linarith
  have hfirst : (start + ((k : ℚ) + 1) * d) - start ≤ 30 := by
    have he : (start + ((k : ℚ) + 1) * d) - start = ((k : ℚ) + 1) * d := by ring
    rw [he]
    have h2 := htime (k + 1) (by omega)
    push_cast at h2
    linarith
  have hmids : ∀ x ∈ (List.range m').map
      fun j : ℕ => (start + ((k : ℚ) + ((j : ℚ) + 1) + 1) * d, true),
      (x : ℚ × Bool).2 = true ∧
        x.1 - (start + ((k : ℚ) + 1) * d) < D ∧ x.1 - start ≤ 30 := by
    intro x hx
    obtain ⟨j, hj, rfl⟩ := List.mem_map.mp hx
    have hjm : j < m' := List.mem_range.mp hj
    have hjQ : (j : ℚ) + 1 ≤ (m' : ℚ) := by exact_mod_cast hjm
    refine ⟨rfl, ?_, ?_⟩
    · have he : (start + ((k : ℚ) + ((j : ℚ) + 1) + 1) * d)
          - (start + ((k : ℚ) + 1) * d) = ((j : ℚ) + 1) * d := by ring
      rw [he]
      nlinarith
    · have he : (start + ((k : ℚ) + ((j : ℚ) + 1) + 1) * d) - start
          = ((k : ℚ) + (j : ℚ) + 2) * d := by ring
      rw [he]
      have h2 := htime (k + j + 2) (by omega)
      push_cast at h2
      linarith
  have hge : D ≤ (start + ((k : ℚ) + ((m' : ℚ) + 1) + 1) * d)
      - (start + ((k : ℚ) + 1) * d) := by
    have he : (start + ((k : ℚ) + ((m' : ℚ) + 1) + 1) * d)
        - (start + ((k : ℚ) + 1) * d) = ((m' : ℚ) + 1) * d := by ring
    rw [he]
    linarith
  rw [record_until_silence, episodeFrames_split,
    recordLoop_loud_append D start _ _ hloud,
    recordLoop_first_silent D start _ _ hfirst,
    recordLoop_silent_hold D start _ _ _ hmids,
    recordLoop_break_single D start _ _ hge]
  simp
  omega

/-- Witness for the amended C7: one loud frame then two silent frames,
2 s apart, with a 2 s silence duration: the episode ends at frame 3. -/
theorem record_until_silence_ends_at_witness :
    ((0 : ℚ) < 2 ∧ 2 ≤ 2 ∧ (2 : ℚ) ≤ (((2 : ℕ) : ℚ) - 1) * 2 ∧
      (((2 : ℕ) : ℚ) - 2) * 2 < 2 ∧ (((1 : ℕ) : ℚ) + ((2 : ℕ) : ℚ)) * 2 ≤ 30) ∧
    record_until_silence 2 0 (episodeFrames 0 2 1 2) = some (1 + 2) :=
  ⟨⟨by norm_num, by norm_num, by norm_num, by norm_num, by norm_num⟩,
   record_until_silence_ends_at 1 2 2 2 0 (by norm_num) (by norm_num)
     (by norm_num) (by norm_num) (by norm_num)⟩

/-- Claim C8: whatever the silence state, if some frame of the stream
arrives more than 30 seconds after the episode started, the recording
loop has ended by that frame (at it, or earlier for another reason). -/
theorem record_until_silence_hard_cap (D start : ℚ) (frames : List (ℚ × Bool))
    (i : ℕ) (hi : i < frames.length)
    (hcap : 30 < (frames.get ⟨i, hi⟩).1 - start) :
    ∃ j, record_until_silence D start frames = some j ∧ j ≤ i + 1 :=
  recordLoop_cap_aux D start frames i none hi hcap

/-- Witness for C8: a single loud frame arriving 31 s after the start
ends the episode. -/
theorem record_until_silence_hard_cap_witness :
    (0 < ([((31 : ℚ), false)] : List (ℚ × Bool)).length ∧
      30 < (([((31 : ℚ), false)] : List (ℚ × Bool)).get ⟨0, by norm_num⟩).1 - 0) ∧
    ∃ j, record_until_silence 2 0 [((31 : ℚ), false)] = some j ∧ j ≤ 0 + 1 :=
  ⟨⟨by norm_num, by norm_num⟩,
   record_until_silence_hard_cap 2 0 [((31 : ℚ), false)] 0 (by norm_num)
     (by norm_num)⟩

/-- Claim C9: for every behaviour of the underlying engine — including
`AcceptWaveform` or `FinalResult` raising — one invocation of
`process_command` with a recognizer present calls `reset` exactly once
(in the `finally` block), and `recognize_audio` itself never calls it,
so the next utterance starts from a fresh decoder state. -/
theorem process_command_resets_once (eng : VoskEngine) :
    (process_command true eng).count .reset = 1 ∧
    (recognize_audio eng).1.count .reset = 0 := by
  rcases eng with ⟨a, f, txt⟩
  cases a <;> cases f <;>
    simp [process_command, recognize_audio, List.count_append, List.count_cons,
      List.count_singleton, List.count_nil]
